import Mathlib

/-!
Shallow embedding of `src/ast.rs` of rust-cssparser: the CSS component-value
data model, the `Show` rendering of `SyntaxError`, and the two
whitespace-skipping iterators, together with proofs of the specification's
claims about them.

Rust `Vec<T>` and `&[T]` become `List`; `uint`, `u32` become `Nat`; `i64`
becomes `Int`; `Option<T>` becomes `Option`; `String` and `char` map to
`String` and `Char`.  The derived `PartialEq` instances are embedded as
explicit boolean equality functions, because on an `f64` field the derived
comparison is IEEE-754 equality, which is not definitional equality.
-/

/-- Model of the Rust `f64` payload, adequate for the equality structure this
layer uses. IEEE-754 `==` (the semantics the derived `PartialEq` applies to an
`f64` field) equates two non-NaN values exactly when they denote the same
extended real number (in particular `+0.0 == -0.0`, so a `Rat` carrier is
faithful for finite values), and makes NaN unequal to every value, itself
included.  The two infinities, each equal only to itself, behave like any
other distinct non-NaN values and are elided from the carrier. -/
inductive F64 where
  | nan : F64
  | val : Rat → F64
deriving DecidableEq

/-- IEEE-754 equality on the `F64` model: NaN is unequal to everything. -/
def F64.beq : F64 → F64 → Bool
  | F64.val a, F64.val b => a == b
  | _, _ => false

/-- Modelled from the spec: `round_to_int`, rounding a non-NaN `f64` to the
nearest integer (the spec's §8 property references it; no such function
exists in `src/`). -/
def F64.roundToInt : F64 → Option Int
  | F64.nan => none
  | F64.val q => some (round q)

/-- `pub struct NumericValue` from `src/ast.rs` lines 11-15. -/
structure NumericValue where
  representation : String
  value : F64
  int_value : Option Int
deriving DecidableEq

/-- The derived `PartialEq` on `NumericValue`: field-wise comparison, the
`f64` field compared by IEEE equality. -/
def NumericValue.beq (a b : NumericValue) : Bool :=
  a.representation == b.representation && F64.beq a.value b.value &&
    a.int_value == b.int_value

/-- A `NumericValue` whose `f64` payload is not NaN. -/
def NumericValue.nanFree (a : NumericValue) : Bool :=
  match a.value with
  | F64.nan => false
  | F64.val _ => true

/-- `pub struct SourceLocation` from `src/ast.rs` lines 19-22.  The Rust
comments document the convention that the first line is 1 and the first
column of a line is 1; the `uint` fields themselves are unconstrained. -/
structure SourceLocation where
  line : Nat
  column : Nat
deriving DecidableEq

/-- The derived `PartialEq` on `SourceLocation`. -/
def SourceLocation.beq (a b : SourceLocation) : Bool :=
  a.line == b.line && a.column == b.column

/-- `pub enum ComponentValue` from `src/ast.rs` lines 28-69. -/
inductive ComponentValue where
  | Ident : String → ComponentValue
  | AtKeyword : String → ComponentValue
  | Hash : String → ComponentValue
  | IDHash : String → ComponentValue
  | QuotedString : String → ComponentValue
  | URL : String → ComponentValue
  | Delim : Char → ComponentValue
  | Number : NumericValue → ComponentValue
  | Percentage : NumericValue → ComponentValue
  | Dimension : NumericValue → String → ComponentValue
  | UnicodeRange : Nat → Nat → ComponentValue
  | WhiteSpace : ComponentValue
  | Colon : ComponentValue
  | Semicolon : ComponentValue
  | Comma : ComponentValue
  | IncludeMatch : ComponentValue
  | DashMatch : ComponentValue
  | PrefixMatch : ComponentValue
  | SuffixMatch : ComponentValue
  | SubstringMatch : ComponentValue
  | Column : ComponentValue
  | CDO : ComponentValue
  | CDC : ComponentValue
  | Function : String → List ComponentValue → ComponentValue
  | ParenthesisBlock : List ComponentValue → ComponentValue
  | SquareBracketBlock : List ComponentValue → ComponentValue
  | CurlyBracketBlock : List (ComponentValue × SourceLocation) → ComponentValue
  | BadURL : ComponentValue
  | BadString : ComponentValue
  | CloseParenthesis : ComponentValue
  | CloseSquareBracket : ComponentValue
  | CloseCurlyBracket : ComponentValue

/-- `pub type Node = (ComponentValue, SourceLocation)` from `src/ast.rs`. -/
abbrev Node := ComponentValue × SourceLocation

mutual

/-- The derived `PartialEq` on `ComponentValue`: same variant, payload fields
compared recursively; sequences element-wise, in order. -/
def ComponentValue.beq : ComponentValue → ComponentValue → Bool
  | .Ident a, .Ident b => a == b
  | .AtKeyword a, .AtKeyword b => a == b
  | .Hash a, .Hash b => a == b
  | .IDHash a, .IDHash b => a == b
  | .QuotedString a, .QuotedString b => a == b
  | .URL a, .URL b => a == b
  | .Delim a, .Delim b => a == b
  | .Number a, .Number b => NumericValue.beq a b
  | .Percentage a, .Percentage b => NumericValue.beq a b
  | .Dimension a u, .Dimension b v => NumericValue.beq a b && u == v
  | .UnicodeRange a b, .UnicodeRange c d => a == c && b == d
  | .WhiteSpace, .WhiteSpace => true
  | .Colon, .Colon => true
  | .Semicolon, .Semicolon => true
  | .Comma, .Comma => true
  | .IncludeMatch, .IncludeMatch => true
  | .DashMatch, .DashMatch => true
  | .PrefixMatch, .PrefixMatch => true
  | .SuffixMatch, .SuffixMatch => true
  | .SubstringMatch, .SubstringMatch => true
  | .Column, .Column => true
  | .CDO, .CDO => true
  | .CDC, .CDC => true
  | .Function n1 a1, .Function n2 a2 => n1 == n2 && ComponentValue.beqList a1 a2
  | .ParenthesisBlock a, .ParenthesisBlock b => ComponentValue.beqList a b
  | .SquareBracketBlock a, .SquareBracketBlock b => ComponentValue.beqList a b
  | .CurlyBracketBlock a, .CurlyBracketBlock b => ComponentValue.beqNodeList a b
  | .BadURL, .BadURL => true
  | .BadString, .BadString => true
  | .CloseParenthesis, .CloseParenthesis => true
  | .CloseSquareBracket, .CloseSquareBracket => true
  | .CloseCurlyBracket, .CloseCurlyBracket => true
  | _, _ => false

/-- Element-wise `PartialEq` on `Vec<ComponentValue>`. -/
def ComponentValue.beqList : List ComponentValue → List ComponentValue → Bool
  | [], [] => true
  | x :: xs, y :: ys => ComponentValue.beq x y && ComponentValue.beqList xs ys
  | _, _ => false

/-- Element-wise `PartialEq` on `Vec<Node>`. -/
def ComponentValue.beqNodeList :
    List (ComponentValue × SourceLocation) → List (ComponentValue × SourceLocation) → Bool
  | [], [] => true
  | (x, lx) :: xs, (y, ly) :: ys =>
      ComponentValue.beq x y && SourceLocation.beq lx ly && ComponentValue.beqNodeList xs ys
  | _, _ => false

end

mutual

/-- No NaN `f64` payload occurs anywhere in the value, nested content
included.  On NaN-free values the derived `PartialEq` coincides with
structural equality. -/
def ComponentValue.nanFree : ComponentValue → Bool
  | .Number a => NumericValue.nanFree a
  | .Percentage a => NumericValue.nanFree a
  | .Dimension a _ => NumericValue.nanFree a
  | .Function _ xs => ComponentValue.nanFreeList xs
  | .ParenthesisBlock xs => ComponentValue.nanFreeList xs
  | .SquareBracketBlock xs => ComponentValue.nanFreeList xs
  | .CurlyBracketBlock ns => ComponentValue.nanFreeNodeList ns
  | _ => true

/-- `nanFree` on every element of a list of component values. -/
def ComponentValue.nanFreeList : List ComponentValue → Bool
  | [] => true
  | x :: xs => ComponentValue.nanFree x && ComponentValue.nanFreeList xs

/-- `nanFree` on every node of a list of nodes. -/
def ComponentValue.nanFreeNodeList : List (ComponentValue × SourceLocation) → Bool
  | [] => true
  | (x, _) :: xs => ComponentValue.nanFree x && ComponentValue.nanFreeNodeList xs

end

mutual

/-- All source locations stored anywhere inside a component value: only
curly-bracket blocks store located nodes. -/
def ComponentValue.locations : ComponentValue → List SourceLocation
  | .Function _ xs => ComponentValue.locationsList xs
  | .ParenthesisBlock xs => ComponentValue.locationsList xs
  | .SquareBracketBlock xs => ComponentValue.locationsList xs
  | .CurlyBracketBlock ns => ComponentValue.locationsNodeList ns
  | _ => []

/-- `locations` over a list of component values. -/
def ComponentValue.locationsList : List ComponentValue → List SourceLocation
  | [] => []
  | x :: xs => ComponentValue.locations x ++ ComponentValue.locationsList xs

/-- `locations` over a list of nodes: each node contributes its own location
and the locations nested in its component value. -/
def ComponentValue.locationsNodeList :
    List (ComponentValue × SourceLocation) → List SourceLocation
  | [] => []
  | (x, lx) :: ns =>
      lx :: (ComponentValue.locations x ++ ComponentValue.locationsNodeList ns)

end

/-- `pub struct Declaration` from `src/ast.rs` lines 73-78. -/
structure Declaration where
  location : SourceLocation
  name : String
  value : List ComponentValue
  important : Bool

/-- `pub struct QualifiedRule` from `src/ast.rs` lines 80-85. -/
structure QualifiedRule where
  location : SourceLocation
  prelude : List ComponentValue
  block : List Node

/-- `pub struct AtRule` from `src/ast.rs` lines 87-93. -/
structure AtRule where
  location : SourceLocation
  name : String
  prelude : List ComponentValue
  block : Option (List Node)

/-- `pub enum DeclarationListItem` from `src/ast.rs` lines 95-99. -/
inductive DeclarationListItem where
  | Declaration : Declaration → DeclarationListItem
  | AtRule : AtRule → DeclarationListItem

/-- `pub enum Rule` from `src/ast.rs` lines 101-105. -/
inductive Rule where
  | QualifiedRule : QualifiedRule → Rule
  | AtRule : AtRule → Rule

/-- `pub enum ErrorReason` from `src/ast.rs` lines 113-121. -/
inductive ErrorReason where
  | EmptyInput : ErrorReason
  | ExtraInput : ErrorReason
  | MissingQualifiedRuleBlock : ErrorReason
  | InvalidDeclarationSyntax : ErrorReason
  | InvalidBangImportantSyntax : ErrorReason
deriving DecidableEq

/-- `pub struct SyntaxError` from `src/ast.rs` lines 107-111. -/
structure SyntaxError where
  location : SourceLocation
  reason : ErrorReason
deriving DecidableEq

/-- The derived `Show` on `ErrorReason`: each payload-free variant renders as
its canonical name. -/
def ErrorReason.fmt : ErrorReason → String
  | .EmptyInput => "EmptyInput"
  | .ExtraInput => "ExtraInput"
  | .MissingQualifiedRuleBlock => "MissingQualifiedRuleBlock"
  | .InvalidDeclarationSyntax => "InvalidDeclarationSyntax"
  | .InvalidBangImportantSyntax => "InvalidBangImportantSyntax"

/-- `impl fmt::Show for SyntaxError` (`src/ast.rs` lines 123-127):
`write!(f, "{}:{} {}", self.location.line, self.location.column,
self.reason)`. -/
def SyntaxError.fmt (e : SyntaxError) : String :=
  Nat.repr e.location.line ++ ":" ++ Nat.repr e.location.column ++ " " ++
    ErrorReason.fmt e.reason

/-- `pub struct SkipWhitespaceIterator` (`src/ast.rs` lines 138-141).  The
borrowed `slice::Iter` is modelled as the list of elements it has not yet
produced. -/
structure SkipWhitespaceIterator where
  iter_with_whitespace : List ComponentValue

/-- `skip_whitespace` of `impl SkipWhitespaceIterable for &'a [ComponentValue]`
(`src/ast.rs` lines 134-137): wrap the slice's iterator. -/
def skip_whitespace (s : List ComponentValue) : SkipWhitespaceIterator :=
  { iter_with_whitespace := s }

/-- The `for` loop inside `SkipWhitespaceIterator::next`: advance the
underlying iterator; return the first component value that is `!=` (derived
`PartialEq`) to `WhiteSpace`, or `None` when the underlying iterator is
exhausted. -/
def SkipWhitespaceIterator.nextLoop :
    List ComponentValue → Option (ComponentValue × SkipWhitespaceIterator)
  | [] => none
  | cv :: rest =>
    if ComponentValue.beq cv ComponentValue.WhiteSpace then
      SkipWhitespaceIterator.nextLoop rest
    else
      some (cv, { iter_with_whitespace := rest })

/-- `Iterator::next` for `SkipWhitespaceIterator` (`src/ast.rs` lines
145-152).  Yielding an item also returns the advanced iterator, which the
Rust code produces by mutating `self`. -/
def SkipWhitespaceIterator.next (it : SkipWhitespaceIterator) :
    Option (ComponentValue × SkipWhitespaceIterator) :=
  SkipWhitespaceIterator.nextLoop it.iter_with_whitespace

/-- Iterating a `SkipWhitespaceIterator` to exhaustion, collecting the
yielded items; `fuel` bounds the number of `next` calls.  Every yield
consumes at least one underlying element, so `fuel := length` reaches
exhaustion (`SkipWhitespaceIterator.exhaustFuel_eq_filter` makes this
precise). -/
def SkipWhitespaceIterator.exhaustFuel :
    Nat → SkipWhitespaceIterator → List ComponentValue
  | 0, _ => []
  | fuel + 1, it =>
    match SkipWhitespaceIterator.next it with
    | none => []
    | some (cv, it') => cv :: SkipWhitespaceIterator.exhaustFuel fuel it'

/-- The full sequence of items yielded by a `SkipWhitespaceIterator`. -/
def SkipWhitespaceIterator.exhaust (it : SkipWhitespaceIterator) : List ComponentValue :=
  SkipWhitespaceIterator.exhaustFuel it.iter_with_whitespace.length it

/-- `pub struct MoveSkipWhitespaceIterator` (`src/ast.rs` lines 166-168).
The owned `vec::IntoIter` is modelled as the list of elements it has not yet
produced. -/
structure MoveSkipWhitespaceIterator where
  iter_with_whitespace : List ComponentValue

/-- `move_skip_whitespace` of `impl MoveSkipWhitespaceIterable for
Vec<ComponentValue>` (`src/ast.rs` lines 158-162): take ownership of the
vector and wrap its consuming iterator. -/
def move_skip_whitespace (v : List ComponentValue) : MoveSkipWhitespaceIterator :=
  { iter_with_whitespace := v }

/-- The `for` loop inside `MoveSkipWhitespaceIterator::next`: identical to
the borrowing variant except that items are yielded by value. -/
def MoveSkipWhitespaceIterator.nextLoop :
    List ComponentValue → Option (ComponentValue × MoveSkipWhitespaceIterator)
  | [] => none
  | cv :: rest =>
    if ComponentValue.beq cv ComponentValue.WhiteSpace then
      MoveSkipWhitespaceIterator.nextLoop rest
    else
      some (cv, { iter_with_whitespace := rest })

/-- `Iterator::next` for `MoveSkipWhitespaceIterator` (`src/ast.rs` lines
170-176). -/
def MoveSkipWhitespaceIterator.next (it : MoveSkipWhitespaceIterator) :
    Option (ComponentValue × MoveSkipWhitespaceIterator) :=
  MoveSkipWhitespaceIterator.nextLoop it.iter_with_whitespace

/-- Iterating a `MoveSkipWhitespaceIterator` to exhaustion with bounded fuel. -/
def MoveSkipWhitespaceIterator.exhaustFuel :
    Nat → MoveSkipWhitespaceIterator → List ComponentValue
  | 0, _ => []
  | fuel + 1, it =>
    match MoveSkipWhitespaceIterator.next it with
    | none => []
    | some (cv, it') => cv :: MoveSkipWhitespaceIterator.exhaustFuel fuel it'

/-- The full sequence of items yielded by a `MoveSkipWhitespaceIterator`. -/
def MoveSkipWhitespaceIterator.exhaust (it : MoveSkipWhitespaceIterator) : List ComponentValue :=
  MoveSkipWhitespaceIterator.exhaustFuel it.iter_with_whitespace.length it

/-- Variant check for `WhiteSpace`, the filtering criterion in the
specification's vocabulary. -/
def ComponentValue.isWhiteSpace : ComponentValue → Bool
  | .WhiteSpace => true
  | _ => false

/-- One observed step of borrowing iteration, carried alongside the source
sequence the iterator was created from.  The Rust `next` takes `&mut self`
only; the source slice is behind a shared borrow and is never written, which
the embedding renders by the step acting as the identity on the source
component. -/
def borrowStep (s : List ComponentValue × SkipWhitespaceIterator) :
    List ComponentValue × SkipWhitespaceIterator :=
  match SkipWhitespaceIterator.next s.2 with
  | none => s
  | some (_, it') => (s.1, it')

/-- The digit string value, most significant digit first. -/
def digitsVal (l : List Char) : Nat :=
  l.foldl (fun acc c => 10 * acc + (c.toNat - Char.toNat '0')) 0

/-- Strip an optional leading sign, returning the signum and the rest. -/
def splitSign : List Char → Int × List Char
  | [] => (1, [])
  | c :: rest =>
    if c = '+' then (1, rest)
    else if c = '-' then (-1, rest)
    else (1, c :: rest)

/-- Split the remainder after the integer digits into the fractional digits
(when a decimal point follows) and the rest. -/
def fracSplit (rest1 : List Char) : List Char × List Char :=
  match rest1 with
  | [] => ([], [])
  | c :: r =>
    if c = '.' then (r.takeWhile Char.isDigit, r.dropWhile Char.isDigit)
    else ([], c :: r)

/-- The signed value of an exponent suffix `[eE] sign? digits`; 0 when the
suffix is absent. -/
def expVal : List Char → Int
  | [] => 0
  | c :: r =>
    if c = 'e' ∨ c = 'E' then
      (splitSign r).1 * (digitsVal ((splitSign r).2.takeWhile Char.isDigit) : Int)
    else 0

/-- Checks that a (possibly empty) exponent suffix is well-formed:
`[eE] sign? digits`, with at least one digit and nothing after. -/
def expOk : List Char → Bool
  | [] => true
  | c :: r =>
    (c == 'e' || c == 'E') &&
      !(splitSign r).2.isEmpty && (splitSign r).2.all Char.isDigit

/-- Modelled from the spec: the integer interpretation of a numeric token's
representation (`sign? digits`), used by the conforming tokenizer, which is
out of scope and not under `src/`. -/
def intInterp (s : String) : Int :=
  (splitSign s.toList).1 *
    (digitsVal ((splitSign s.toList).2.takeWhile Char.isDigit) : Int)

/-- Modelled from the spec: the numeric value denoted by a CSS number token
`sign? digits ('.' digits)? ([eE] sign? digits)?`, with the `f64` modelled
exactly (every value produced here is exactly representable in the model's
`Rat` carrier). -/
def numInterp (s : String) : Rat :=
  let sign := (splitSign s.toList).1
  let l := (splitSign s.toList).2
  let ip := l.takeWhile Char.isDigit
  let fr := fracSplit (l.dropWhile Char.isDigit)
  (sign : Rat) * ((digitsVal ip : Rat) + (digitsVal fr.1 : Rat) / (10 : Rat) ^ fr.1.length) *
    (10 : Rat) ^ expVal fr.2

/-- The representation matches the integer production: no decimal point and
no exponent marker anywhere in the token text. -/
def isIntegerRepr (s : String) : Bool :=
  s.toList.all (fun c => !(c == '.') && !(c == 'e') && !(c == 'E'))

/-- The token text matches the CSS number grammar
`sign? (digits | digits '.' digits | '.' digits) ([eE] sign? digits)?`. -/
def isNumberToken (s : String) : Bool :=
  let l := (splitSign s.toList).2
  let ip := l.takeWhile Char.isDigit
  let rest1 := l.dropWhile Char.isDigit
  let fr := fracSplit rest1
  (!ip.isEmpty || !fr.1.isEmpty) &&
    (match rest1 with
     | '.' :: _ => !fr.1.isEmpty
     | _ => true) &&
    expOk fr.2

/-- Modelled from the spec: construction of a `NumericValue` by the
conforming tokenizer (out of scope, not under `src/`) from the exact token
text: `representation` is that text, `value` its numeric interpretation, and
`int_value` present exactly when the token matched the integer production
(no `.`, no exponent marker), holding the integer interpretation of the
text. -/
def mkNumericValue (s : String) : NumericValue :=
  { representation := s
  , value := F64.val (numInterp s)
  , int_value := if isIntegerRepr s then some (intInterp s) else none }

theorem ComponentValue.beq_Ident (a b : String) :
    ComponentValue.beq (.Ident a) (.Ident b) = (a == b) := rfl

theorem ComponentValue.beq_AtKeyword (a b : String) :
    ComponentValue.beq (.AtKeyword a) (.AtKeyword b) = (a == b) := rfl

theorem ComponentValue.beq_Hash (a b : String) :
    ComponentValue.beq (.Hash a) (.Hash b) = (a == b) := rfl

theorem ComponentValue.beq_IDHash (a b : String) :
    ComponentValue.beq (.IDHash a) (.IDHash b) = (a == b) := rfl

theorem ComponentValue.beq_QuotedString (a b : String) :
    ComponentValue.beq (.QuotedString a) (.QuotedString b) = (a == b) := rfl

theorem ComponentValue.beq_URL (a b : String) :
    ComponentValue.beq (.URL a) (.URL b) = (a == b) := rfl

theorem ComponentValue.beq_Delim (a b : Char) :
    ComponentValue.beq (.Delim a) (.Delim b) = (a == b) := rfl

theorem ComponentValue.beq_Number (a b : NumericValue) :
    ComponentValue.beq (.Number a) (.Number b) = NumericValue.beq a b := rfl

theorem ComponentValue.beq_Percentage (a b : NumericValue) :
    ComponentValue.beq (.Percentage a) (.Percentage b) = NumericValue.beq a b := rfl

theorem ComponentValue.beq_Dimension (a b : NumericValue) (u v : String) :
    ComponentValue.beq (.Dimension a u) (.Dimension b v) = (NumericValue.beq a b && u == v) := rfl

theorem ComponentValue.beq_UnicodeRange (a b c d : Nat) :
    ComponentValue.beq (.UnicodeRange a b) (.UnicodeRange c d) = (a == c && b == d) := rfl

theorem ComponentValue.beq_Function (n1 n2 : String) (a1 a2 : List ComponentValue) :
    ComponentValue.beq (.Function n1 a1) (.Function n2 a2) =
      (n1 == n2 && ComponentValue.beqList a1 a2) := rfl

theorem ComponentValue.beq_ParenthesisBlock (a b : List ComponentValue) :
    ComponentValue.beq (.ParenthesisBlock a) (.ParenthesisBlock b) =
      ComponentValue.beqList a b := rfl

theorem ComponentValue.beq_SquareBracketBlock (a b : List ComponentValue) :
    ComponentValue.beq (.SquareBracketBlock a) (.SquareBracketBlock b) =
      ComponentValue.beqList a b := rfl

theorem ComponentValue.beq_CurlyBracketBlock (a b : List (ComponentValue × SourceLocation)) :
    ComponentValue.beq (.CurlyBracketBlock a) (.CurlyBracketBlock b) =
      ComponentValue.beqNodeList a b := rfl

theorem ComponentValue.beqList_nil :
    ComponentValue.beqList [] [] = true := rfl

theorem ComponentValue.beqList_nil_cons (y : ComponentValue) (ys : List ComponentValue) :
    ComponentValue.beqList [] (y :: ys) = false := rfl

theorem ComponentValue.beqList_cons_nil (x : ComponentValue) (xs : List ComponentValue) :
    ComponentValue.beqList (x :: xs) [] = false := rfl

theorem ComponentValue.beqList_cons (x y : ComponentValue) (xs ys : List ComponentValue) :
    ComponentValue.beqList (x :: xs) (y :: ys) =
      (ComponentValue.beq x y && ComponentValue.beqList xs ys) := rfl

theorem ComponentValue.beqNodeList_nil :
    ComponentValue.beqNodeList [] [] = true := rfl

theorem ComponentValue.beqNodeList_nil_cons (q : ComponentValue × SourceLocation)
    (ms : List (ComponentValue × SourceLocation)) :
    ComponentValue.beqNodeList [] (q :: ms) = false := rfl

theorem ComponentValue.beqNodeList_cons_nil (p : ComponentValue × SourceLocation)
    (ns : List (ComponentValue × SourceLocation)) :
    ComponentValue.beqNodeList (p :: ns) [] = false := rfl

theorem ComponentValue.beqNodeList_cons (x y : ComponentValue) (lx ly : SourceLocation)
    (ns ms : List (ComponentValue × SourceLocation)) :
    ComponentValue.beqNodeList ((x, lx) :: ns) ((y, ly) :: ms) =
      (ComponentValue.beq x y && SourceLocation.beq lx ly &&
        ComponentValue.beqNodeList ns ms) := rfl

theorem ComponentValue.nanFree_Ident (a : String) :
    ComponentValue.nanFree (.Ident a) = true := rfl

theorem ComponentValue.nanFree_AtKeyword (a : String) :
    ComponentValue.nanFree (.AtKeyword a) = true := rfl

theorem ComponentValue.nanFree_Hash (a : String) :
    ComponentValue.nanFree (.Hash a) = true := rfl

theorem ComponentValue.nanFree_IDHash (a : String) :
    ComponentValue.nanFree (.IDHash a) = true := rfl

theorem ComponentValue.nanFree_QuotedString (a : String) :
    ComponentValue.nanFree (.QuotedString a) = true := rfl

theorem ComponentValue.nanFree_URL (a : String) :
    ComponentValue.nanFree (.URL a) = true := rfl

theorem ComponentValue.nanFree_Delim (a : Char) :
    ComponentValue.nanFree (.Delim a) = true := rfl

theorem ComponentValue.nanFree_Number (a : NumericValue) :
    ComponentValue.nanFree (.Number a) = NumericValue.nanFree a := rfl

theorem ComponentValue.nanFree_Percentage (a : NumericValue) :
    ComponentValue.nanFree (.Percentage a) = NumericValue.nanFree a := rfl

theorem ComponentValue.nanFree_Dimension (a : NumericValue) (u : String) :
    ComponentValue.nanFree (.Dimension a u) = NumericValue.nanFree a := rfl

theorem ComponentValue.nanFree_UnicodeRange (a b : Nat) :
    ComponentValue.nanFree (.UnicodeRange a b) = true := rfl

theorem ComponentValue.nanFree_Function (n : String) (xs : List ComponentValue) :
    ComponentValue.nanFree (.Function n xs) = ComponentValue.nanFreeList xs := rfl

theorem ComponentValue.nanFree_ParenthesisBlock (xs : List ComponentValue) :
    ComponentValue.nanFree (.ParenthesisBlock xs) = ComponentValue.nanFreeList xs := rfl

theorem ComponentValue.nanFree_SquareBracketBlock (xs : List ComponentValue) :
    ComponentValue.nanFree (.SquareBracketBlock xs) = ComponentValue.nanFreeList xs := rfl

theorem ComponentValue.nanFree_CurlyBracketBlock (ns : List (ComponentValue × SourceLocation)) :
    ComponentValue.nanFree (.CurlyBracketBlock ns) = ComponentValue.nanFreeNodeList ns := rfl

theorem ComponentValue.nanFreeList_nil : ComponentValue.nanFreeList [] = true := rfl

theorem ComponentValue.nanFreeList_cons (x : ComponentValue) (xs : List ComponentValue) :
    ComponentValue.nanFreeList (x :: xs) =
      (ComponentValue.nanFree x && ComponentValue.nanFreeList xs) := rfl

theorem ComponentValue.nanFreeNodeList_nil : ComponentValue.nanFreeNodeList [] = true := rfl

theorem ComponentValue.nanFreeNodeList_cons (x : ComponentValue) (lx : SourceLocation)
    (ns : List (ComponentValue × SourceLocation)) :
    ComponentValue.nanFreeNodeList ((x, lx) :: ns) =
      (ComponentValue.nanFree x && ComponentValue.nanFreeNodeList ns) := rfl

theorem NumericValue.beq_iff_nv (a b : NumericValue) :
    (NumericValue.beq a b = true) ↔ (a = b ∧ NumericValue.nanFree a = true) := by
  obtain ⟨ra, va, ia⟩ := a
  obtain ⟨rb, vb, ib⟩ := b
  cases va <;> cases vb <;>
    (simp [NumericValue.beq, F64.beq, NumericValue.nanFree, NumericValue.mk.injEq]; try tauto)

theorem SourceLocation.beq_iff_loc (a b : SourceLocation) :
    (SourceLocation.beq a b = true) ↔ a = b := by
  obtain ⟨la, ca⟩ := a
  obtain ⟨lb, cb⟩ := b
  simp [SourceLocation.beq, SourceLocation.mk.injEq]

set_option maxHeartbeats 1600000 in
/-- Induction step of the `PartialEq` characterization at the level of a
single component value, assuming the characterization for strictly smaller
lists of component values and of nodes. -/
theorem ComponentValue.beq_iff_step (n : Nat)
    (ihl : ∀ xs ys : List ComponentValue, sizeOf xs ≤ n →
      ((ComponentValue.beqList xs ys = true) ↔
        (xs = ys ∧ ComponentValue.nanFreeList xs = true)))
    (ihn : ∀ ns ms : List (ComponentValue × SourceLocation), sizeOf ns ≤ n →
      ((ComponentValue.beqNodeList ns ms = true) ↔
        (ns = ms ∧ ComponentValue.nanFreeNodeList ns = true)))
    (x y : ComponentValue) (hx : sizeOf x ≤ n + 1) :
    (ComponentValue.beq x y = true) ↔ (x = y ∧ ComponentValue.nanFree x = true) := by
  cases x <;> cases y
  all_goals try exact iff_of_false (fun h => Bool.noConfusion h) (fun h => ComponentValue.noConfusion h.1)
  all_goals try exact iff_of_true rfl ⟨rfl, rfl⟩
  all_goals
    try (simp [ComponentValue.beq_Ident, ComponentValue.beq_AtKeyword,
      ComponentValue.beq_Hash, ComponentValue.beq_IDHash,
      ComponentValue.beq_QuotedString, ComponentValue.beq_URL,
      ComponentValue.beq_Delim, ComponentValue.beq_Number,
      ComponentValue.beq_Percentage, ComponentValue.beq_Dimension,
      ComponentValue.beq_UnicodeRange, NumericValue.beq_iff_nv,
      ComponentValue.nanFree_Ident, ComponentValue.nanFree_AtKeyword,
      ComponentValue.nanFree_Hash, ComponentValue.nanFree_IDHash,
      ComponentValue.nanFree_QuotedString, ComponentValue.nanFree_URL,
      ComponentValue.nanFree_Delim, ComponentValue.nanFree_Number,
      ComponentValue.nanFree_Percentage, ComponentValue.nanFree_Dimension,
      ComponentValue.nanFree_UnicodeRange] <;> tauto)
  · rename_i name1 args1 name2 args2
    have hsub : sizeOf args1 ≤ n := by simp at hx; omega
    rw [ComponentValue.beq_Function]
    simp [ComponentValue.nanFree_Function, ihl args1 args2 hsub]
    tauto
  · rename_i args1 args2
    have hsub : sizeOf args1 ≤ n := by simp at hx; omega
    rw [ComponentValue.beq_ParenthesisBlock]
    simp [ComponentValue.nanFree_ParenthesisBlock, ihl args1 args2 hsub]
  · rename_i args1 args2
    have hsub : sizeOf args1 ≤ n := by simp at hx; omega
    rw [ComponentValue.beq_SquareBracketBlock]
    simp [ComponentValue.nanFree_SquareBracketBlock, ihl args1 args2 hsub]
  · rename_i nodes1 nodes2
    have hsub : sizeOf nodes1 ≤ n := by simp at hx; omega
    rw [ComponentValue.beq_CurlyBracketBlock]
    simp [ComponentValue.nanFree_CurlyBracketBlock, ihn nodes1 nodes2 hsub]

/-- Induction step of the `PartialEq` characterization at the level of a list
of component values. -/
theorem ComponentValue.beqList_iff_step (n : Nat)
    (ihv : ∀ x y : ComponentValue, sizeOf x ≤ n →
      ((ComponentValue.beq x y = true) ↔ (x = y ∧ ComponentValue.nanFree x = true)))
    (ihl : ∀ xs ys : List ComponentValue, sizeOf xs ≤ n →
      ((ComponentValue.beqList xs ys = true) ↔
        (xs = ys ∧ ComponentValue.nanFreeList xs = true)))
    (xs ys : List ComponentValue) (hxs : sizeOf xs ≤ n + 1) :
    (ComponentValue.beqList xs ys = true) ↔
      (xs = ys ∧ ComponentValue.nanFreeList xs = true) := by
  cases xs with
  | nil =>
    cases ys <;>
      simp [ComponentValue.beqList_nil, ComponentValue.beqList_nil_cons,
        ComponentValue.nanFreeList_nil]
  | cons x xs' =>
    cases ys with
    | nil => simp [ComponentValue.beqList_cons_nil]
    | cons y ys' =>
      have h1 : sizeOf x ≤ n := by simp at hxs; omega
      have h2 : sizeOf xs' ≤ n := by simp at hxs; omega
      simp [ComponentValue.beqList_cons, ComponentValue.nanFreeList_cons,
        ihv x y h1, ihl xs' ys' h2]
      tauto

/-- Induction step of the `PartialEq` characterization at the level of a list
of nodes. -/
theorem ComponentValue.beqNodeList_iff_step (n : Nat)
    (ihv : ∀ x y : ComponentValue, sizeOf x ≤ n →
      ((ComponentValue.beq x y = true) ↔ (x = y ∧ ComponentValue.nanFree x = true)))
    (ihn : ∀ ns ms : List (ComponentValue × SourceLocation), sizeOf ns ≤ n →
      ((ComponentValue.beqNodeList ns ms = true) ↔
        (ns = ms ∧ ComponentValue.nanFreeNodeList ns = true)))
    (ns ms : List (ComponentValue × SourceLocation)) (hns : sizeOf ns ≤ n + 1) :
    (ComponentValue.beqNodeList ns ms = true) ↔
      (ns = ms ∧ ComponentValue.nanFreeNodeList ns = true) := by
  cases ns with
  | nil =>
    cases ms <;>
      simp [ComponentValue.beqNodeList_nil, ComponentValue.beqNodeList_nil_cons,
        ComponentValue.nanFreeNodeList_nil]
  | cons p ns' =>
    obtain ⟨x, lx⟩ := p
    cases ms with
    | nil => simp [ComponentValue.beqNodeList_cons_nil]
    | cons q ms' =>
      obtain ⟨y, ly⟩ := q
      have h1 : sizeOf x ≤ n := by simp at hns; omega
      have h2 : sizeOf ns' ≤ n := by simp at hns; omega
      simp [ComponentValue.beqNodeList_cons, ComponentValue.nanFreeNodeList_cons,
        SourceLocation.beq_iff_loc, ihv x y h1, ihn ns' ms' h2]
      tauto

/-- Characterization of the derived `PartialEq`, proved for component values,
lists and node lists at once by strong induction on size: `x == y` holds
exactly when `x` and `y` are structurally equal and contain no NaN. -/
theorem ComponentValue.beq_iff_aux (fuel : Nat) :
    (∀ x y : ComponentValue, sizeOf x ≤ fuel →
      ((ComponentValue.beq x y = true) ↔ (x = y ∧ ComponentValue.nanFree x = true))) ∧
    (∀ xs ys : List ComponentValue, sizeOf xs ≤ fuel →
      ((ComponentValue.beqList xs ys = true) ↔
        (xs = ys ∧ ComponentValue.nanFreeList xs = true))) ∧
    (∀ ns ms : List (ComponentValue × SourceLocation), sizeOf ns ≤ fuel →
      ((ComponentValue.beqNodeList ns ms = true) ↔
        (ns = ms ∧ ComponentValue.nanFreeNodeList ns = true))) := by
  induction fuel with
  | zero =>
    refine ⟨?_, ?_, ?_⟩
    · intro x y hx
      exact absurd hx (by cases x <;> simp_arith)
    · intro xs ys hxs
      exact absurd hxs (by cases xs <;> simp_arith)
    · intro ns ms hns
      exact absurd hns (by cases ns <;> simp_arith)
  | succ n ih =>
    obtain ⟨ihv, ihl, ihn⟩ := ih
    exact ⟨ComponentValue.beq_iff_step n ihl ihn,
      ComponentValue.beqList_iff_step n ihv ihl,
      ComponentValue.beqNodeList_iff_step n ihv ihn⟩

/-- The derived `PartialEq` on `ComponentValue` holds exactly on structurally
equal NaN-free values. -/
theorem ComponentValue.beq_iff_eq (x y : ComponentValue) :
    (ComponentValue.beq x y = true) ↔ (x = y ∧ ComponentValue.nanFree x = true) :=
  (ComponentValue.beq_iff_aux (sizeOf x)).1 x y le_rfl

/-- `PartialEq` against the payload-free `WhiteSpace` variant holds exactly
on `WhiteSpace` itself. -/
theorem ComponentValue.beq_whiteSpace_iff (cv : ComponentValue) :
    (ComponentValue.beq cv ComponentValue.WhiteSpace = true) ↔ cv = ComponentValue.WhiteSpace := by
  rw [ComponentValue.beq_iff_eq]
  constructor
  · exact fun h => h.1
  · rintro rfl
    exact ⟨rfl, rfl⟩

/-- The `!= WhiteSpace` test compiled into both `next` loops agrees with the
variant check. -/
theorem ComponentValue.beq_eq_isWhiteSpace (cv : ComponentValue) :
    ComponentValue.beq cv ComponentValue.WhiteSpace = ComponentValue.isWhiteSpace cv := by
  cases cv <;> rfl

/-- `isWhiteSpace` holds exactly on the `WhiteSpace` variant. -/
theorem ComponentValue.isWhiteSpace_iff (cv : ComponentValue) :
    (ComponentValue.isWhiteSpace cv = true) ↔ cv = ComponentValue.WhiteSpace := by
  rw [← ComponentValue.beq_eq_isWhiteSpace]
  exact ComponentValue.beq_whiteSpace_iff cv

/-- With fuel at least the length of the underlying sequence, iterating the
borrowing iterator to exhaustion yields exactly the non-whitespace elements,
in order. -/
theorem SkipWhitespaceIterator.exhaustFuel_eq_filter :
    ∀ (l : List ComponentValue) (fuel : Nat), l.length ≤ fuel →
      SkipWhitespaceIterator.exhaustFuel fuel { iter_with_whitespace := l } =
        l.filter (fun cv => !ComponentValue.isWhiteSpace cv) := by
  intro l
  induction l with
  | nil =>
    intro fuel _
    cases fuel <;> rfl
  | cons cv rest ih =>
    intro fuel hlen
    rw [List.length_cons] at hlen
    obtain ⟨fuel, rfl⟩ : ∃ n, fuel = n + 1 := ⟨fuel - 1, by omega⟩
    by_cases h : ComponentValue.isWhiteSpace cv = true
    · have e1 : SkipWhitespaceIterator.exhaustFuel (fuel + 1) { iter_with_whitespace := cv :: rest } =
          SkipWhitespaceIterator.exhaustFuel (fuel + 1) { iter_with_whitespace := rest } := by
        simp [SkipWhitespaceIterator.exhaustFuel, SkipWhitespaceIterator.next,
          SkipWhitespaceIterator.nextLoop, ComponentValue.beq_eq_isWhiteSpace, h]
      rw [e1, ih (fuel + 1) (by omega), List.filter_cons]
      simp [h]
    · have e1 : SkipWhitespaceIterator.exhaustFuel (fuel + 1) { iter_with_whitespace := cv :: rest } =
          cv :: SkipWhitespaceIterator.exhaustFuel fuel { iter_with_whitespace := rest } := by
        simp [SkipWhitespaceIterator.exhaustFuel, SkipWhitespaceIterator.next,
          SkipWhitespaceIterator.nextLoop, ComponentValue.beq_eq_isWhiteSpace, h]
      rw [e1, ih fuel (by omega), List.filter_cons]
      simp [h]

/-- Iterating the borrowing `skip_whitespace` iterator to exhaustion yields
exactly the non-whitespace elements of the sequence, in order. -/
theorem SkipWhitespaceIterator.exhaust_eq_filter (l : List ComponentValue) :
    (skip_whitespace l).exhaust = l.filter (fun cv => !ComponentValue.isWhiteSpace cv) :=
  SkipWhitespaceIterator.exhaustFuel_eq_filter l l.length le_rfl

/-- With fuel at least the length of the underlying sequence, iterating the
consuming iterator to exhaustion yields exactly the non-whitespace elements,
in order. -/
theorem MoveSkipWhitespaceIterator.exhaustFuel_eq_filter_move :
    ∀ (l : List ComponentValue) (fuel : Nat), l.length ≤ fuel →
      MoveSkipWhitespaceIterator.exhaustFuel fuel { iter_with_whitespace := l } =
        l.filter (fun cv => !ComponentValue.isWhiteSpace cv) := by
  intro l
  induction l with
  | nil =>
    intro fuel _
    cases fuel <;> rfl
  | cons cv rest ih =>
    intro fuel hlen
    rw [List.length_cons] at hlen
    obtain ⟨fuel, rfl⟩ : ∃ n, fuel = n + 1 := ⟨fuel - 1, by omega⟩
    by_cases h : ComponentValue.isWhiteSpace cv = true
    · have e1 : MoveSkipWhitespaceIterator.exhaustFuel (fuel + 1) { iter_with_whitespace := cv :: rest } =
          MoveSkipWhitespaceIterator.exhaustFuel (fuel + 1) { iter_with_whitespace := rest } := by
        simp [MoveSkipWhitespaceIterator.exhaustFuel, MoveSkipWhitespaceIterator.next,
          MoveSkipWhitespaceIterator.nextLoop, ComponentValue.beq_eq_isWhiteSpace, h]
      rw [e1, ih (fuel + 1) (by omega), List.filter_cons]
      simp [h]
    · have e1 : MoveSkipWhitespaceIterator.exhaustFuel (fuel + 1) { iter_with_whitespace := cv :: rest } =
          cv :: MoveSkipWhitespaceIterator.exhaustFuel fuel { iter_with_whitespace := rest } := by
        simp [MoveSkipWhitespaceIterator.exhaustFuel, MoveSkipWhitespaceIterator.next,
          MoveSkipWhitespaceIterator.nextLoop, ComponentValue.beq_eq_isWhiteSpace, h]
      rw [e1, ih fuel (by omega), List.filter_cons]
      simp [h]

/-- Iterating the consuming `move_skip_whitespace` iterator to exhaustion
yields exactly the non-whitespace elements of the sequence, in order. -/
theorem MoveSkipWhitespaceIterator.exhaust_eq_filter_move (l : List ComponentValue) :
    (move_skip_whitespace l).exhaust = l.filter (fun cv => !ComponentValue.isWhiteSpace cv) :=
  MoveSkipWhitespaceIterator.exhaustFuel_eq_filter_move l l.length le_rfl

/-- Whitespace and non-whitespace counts partition the length of a sequence. -/
theorem countP_isWhiteSpace_add (l : List ComponentValue) :
    l.countP ComponentValue.isWhiteSpace +
      l.countP (fun cv => !ComponentValue.isWhiteSpace cv) = l.length := by
  induction l with
  | nil => rfl
  | cons cv rest ih =>
    by_cases h : ComponentValue.isWhiteSpace cv = true <;>
      (simp [List.countP_cons, h, ← ih]; omega)

/-- C1: for every sequence of component values containing `N` whitespace
tokens and `M` non-whitespace tokens, iterating the borrowing
`skip_whitespace` iterator to exhaustion yields exactly `M` items, namely the
non-whitespace elements of the sequence in their original relative order
(the whitespace filter of the sequence), and the iteration is finite:
`length l` calls of `next` already reach exhaustion, extra fuel changing
nothing. -/
theorem claim_C1 (l : List ComponentValue) (N M : Nat)
    (hN : l.countP ComponentValue.isWhiteSpace = N)
    (hM : l.countP (fun cv => !ComponentValue.isWhiteSpace cv) = M) :
    (skip_whitespace l).exhaust.length = M ∧
    (skip_whitespace l).exhaust = l.filter (fun cv => !ComponentValue.isWhiteSpace cv) ∧
    N + M = l.length ∧
    (∀ fuel, l.length ≤ fuel →
      SkipWhitespaceIterator.exhaustFuel fuel (skip_whitespace l) =
        (skip_whitespace l).exhaust) := by
  refine ⟨?_, SkipWhitespaceIterator.exhaust_eq_filter l, ?_, ?_⟩
  · rw [SkipWhitespaceIterator.exhaust_eq_filter, ← List.countP_eq_length_filter, hM]
  · rw [← hN, ← hM]
    exact countP_isWhiteSpace_add l
  · intro fuel hfuel
    exact (SkipWhitespaceIterator.exhaustFuel_eq_filter l fuel hfuel).trans
      (SkipWhitespaceIterator.exhaust_eq_filter l).symm

/-- Witness for C1 at the sequence `[Ident "a", WhiteSpace]`: one whitespace
token, one non-whitespace token, one yielded item. -/
theorem claim_C1_witness :
    ([ComponentValue.Ident "a", ComponentValue.WhiteSpace].countP
      ComponentValue.isWhiteSpace = 1) ∧
    ([ComponentValue.Ident "a", ComponentValue.WhiteSpace].countP
      (fun cv => !ComponentValue.isWhiteSpace cv) = 1) ∧
    ((skip_whitespace [ComponentValue.Ident "a", ComponentValue.WhiteSpace]).exhaust.length = 1 ∧
      (skip_whitespace [ComponentValue.Ident "a", ComponentValue.WhiteSpace]).exhaust =
        [ComponentValue.Ident "a", ComponentValue.WhiteSpace].filter
          (fun cv => !ComponentValue.isWhiteSpace cv) ∧
      1 + 1 = [ComponentValue.Ident "a", ComponentValue.WhiteSpace].length ∧
      (∀ fuel, [ComponentValue.Ident "a", ComponentValue.WhiteSpace].length ≤ fuel →
        SkipWhitespaceIterator.exhaustFuel fuel
          (skip_whitespace [ComponentValue.Ident "a", ComponentValue.WhiteSpace]) =
          (skip_whitespace [ComponentValue.Ident "a", ComponentValue.WhiteSpace]).exhaust)) :=
  ⟨by decide, by decide,
    claim_C1 [ComponentValue.Ident "a", ComponentValue.WhiteSpace] 1 1 (by decide) (by decide)⟩

/-- C2: over the same logical sequence, the consuming `move_skip_whitespace`
iterator yields, element-wise and in order, exactly the values the borrowing
`skip_whitespace` iterator yields. -/
theorem claim_C2 (l : List ComponentValue) :
    (move_skip_whitespace l).exhaust = (skip_whitespace l).exhaust := by
  rw [MoveSkipWhitespaceIterator.exhaust_eq_filter_move, SkipWhitespaceIterator.exhaust_eq_filter]

/-- The borrowing `next` loop returns `None` exactly when every remaining
element is whitespace (in which case it ran the underlying iterator to its
end). -/
theorem SkipWhitespaceIterator.nextLoop_eq_none_iff (l : List ComponentValue) :
    (SkipWhitespaceIterator.nextLoop l = none) ↔
      (∀ cv ∈ l, cv = ComponentValue.WhiteSpace) := by
  induction l with
  | nil => simp [SkipWhitespaceIterator.nextLoop]
  | cons cv rest ih =>
    by_cases h : ComponentValue.beq cv ComponentValue.WhiteSpace = true
    · have hcv : cv = ComponentValue.WhiteSpace := (ComponentValue.beq_whiteSpace_iff cv).mp h
      have e1 : SkipWhitespaceIterator.nextLoop (cv :: rest) =
          SkipWhitespaceIterator.nextLoop rest := by
        simp [SkipWhitespaceIterator.nextLoop, h]
      rw [e1, ih]
      subst hcv
      simp
    · have hcv : cv ≠ ComponentValue.WhiteSpace :=
        fun he => h ((ComponentValue.beq_whiteSpace_iff cv).mpr he)
      simp [SkipWhitespaceIterator.nextLoop, h, hcv]

/-- The consuming `next` loop returns `None` exactly when every remaining
element is whitespace. -/
theorem MoveSkipWhitespaceIterator.nextLoop_eq_none_iff_move (l : List ComponentValue) :
    (MoveSkipWhitespaceIterator.nextLoop l = none) ↔
      (∀ cv ∈ l, cv = ComponentValue.WhiteSpace) := by
  induction l with
  | nil => simp [MoveSkipWhitespaceIterator.nextLoop]
  | cons cv rest ih =>
    by_cases h : ComponentValue.beq cv ComponentValue.WhiteSpace = true
    · have hcv : cv = ComponentValue.WhiteSpace := (ComponentValue.beq_whiteSpace_iff cv).mp h
      have e1 : MoveSkipWhitespaceIterator.nextLoop (cv :: rest) =
          MoveSkipWhitespaceIterator.nextLoop rest := by
        simp [MoveSkipWhitespaceIterator.nextLoop, h]
      rw [e1, ih]
      subst hcv
      simp
    · have hcv : cv ≠ ComponentValue.WhiteSpace :=
        fun he => h ((ComponentValue.beq_whiteSpace_iff cv).mpr he)
      simp [MoveSkipWhitespaceIterator.nextLoop, h, hcv]

/-- C3: neither skip-whitespace iterator ever yields a `WhiteSpace` token;
each variant's `next` signals exhaustion exactly when only whitespace (or
nothing) remains of the underlying sequence, i.e. exactly when it runs the
underlying iterator to its end; and a run of consecutive whitespace tokens
contributes zero output items — each is skipped independently, and no
synthetic marker is emitted in its place. -/
theorem claim_C3 (l : List ComponentValue) :
    (∀ cv ∈ (skip_whitespace l).exhaust, cv ≠ ComponentValue.WhiteSpace) ∧
    (∀ cv ∈ (move_skip_whitespace l).exhaust, cv ≠ ComponentValue.WhiteSpace) ∧
    ((skip_whitespace l).next = none ↔ ∀ cv ∈ l, cv = ComponentValue.WhiteSpace) ∧
    ((move_skip_whitespace l).next = none ↔ ∀ cv ∈ l, cv = ComponentValue.WhiteSpace) ∧
    (∀ k, (skip_whitespace (List.replicate k ComponentValue.WhiteSpace ++ l)).exhaust =
      (skip_whitespace l).exhaust) ∧
    (∀ k, (move_skip_whitespace (List.replicate k ComponentValue.WhiteSpace ++ l)).exhaust =
      (move_skip_whitespace l).exhaust) := by
  have hws : (fun cv => !ComponentValue.isWhiteSpace cv) ComponentValue.WhiteSpace = false := by
    decide
  refine ⟨?_, ?_, ?_, ?_, ?_, ?_⟩
  · intro cv hcv he
    rw [SkipWhitespaceIterator.exhaust_eq_filter] at hcv
    have hfil := List.of_mem_filter hcv
    rw [he] at hfil
    exact absurd hfil (by decide)
  · intro cv hcv he
    rw [MoveSkipWhitespaceIterator.exhaust_eq_filter_move] at hcv
    have hfil := List.of_mem_filter hcv
    rw [he] at hfil
    exact absurd hfil (by decide)
  · exact SkipWhitespaceIterator.nextLoop_eq_none_iff l
  · exact MoveSkipWhitespaceIterator.nextLoop_eq_none_iff_move l
  · intro k
    rw [SkipWhitespaceIterator.exhaust_eq_filter, SkipWhitespaceIterator.exhaust_eq_filter,
      List.filter_append, List.filter_replicate_of_neg (by simp [hws])]
    rfl
  · intro k
    rw [MoveSkipWhitespaceIterator.exhaust_eq_filter_move, MoveSkipWhitespaceIterator.exhaust_eq_filter_move,
      List.filter_append, List.filter_replicate_of_neg (by simp [hws])]
    rfl

/-- Witness for C3 at the sequence `[WhiteSpace, Colon]`: the yielded item
`Colon` is not whitespace, `next` is not yet exhausted, and prepending two
more whitespace tokens changes nothing. -/
theorem claim_C3_witness :
    ComponentValue.Colon ≠ ComponentValue.WhiteSpace ∧
    (skip_whitespace (List.replicate 2 ComponentValue.WhiteSpace ++
      [ComponentValue.WhiteSpace, ComponentValue.Colon])).exhaust =
      (skip_whitespace [ComponentValue.WhiteSpace, ComponentValue.Colon]).exhaust :=
  ⟨(claim_C3 [ComponentValue.WhiteSpace, ComponentValue.Colon]).1 ComponentValue.Colon
      (by exact List.Mem.head _),
    (claim_C3 [ComponentValue.WhiteSpace, ComponentValue.Colon]).2.2.2.2.1 2⟩

/-- C4: on the input sequence
`[Ident "a", WhiteSpace, WhiteSpace, Colon, WhiteSpace, Number 42]`,
skip-whitespace iteration yields exactly `[Ident "a", Colon, Number 42]`,
for the borrowing and the consuming variant alike. -/
theorem claim_C4 :
    (skip_whitespace
      [ComponentValue.Ident "a", ComponentValue.WhiteSpace, ComponentValue.WhiteSpace,
        ComponentValue.Colon, ComponentValue.WhiteSpace,
        ComponentValue.Number
          { representation := "42", value := F64.val 42, int_value := some 42 }]).exhaust =
      [ComponentValue.Ident "a", ComponentValue.Colon,
        ComponentValue.Number
          { representation := "42", value := F64.val 42, int_value := some 42 }] ∧
    (move_skip_whitespace
      [ComponentValue.Ident "a", ComponentValue.WhiteSpace, ComponentValue.WhiteSpace,
        ComponentValue.Colon, ComponentValue.WhiteSpace,
        ComponentValue.Number
          { representation := "42", value := F64.val 42, int_value := some 42 }]).exhaust =
      [ComponentValue.Ident "a", ComponentValue.Colon,
        ComponentValue.Number
          { representation := "42", value := F64.val 42, int_value := some 42 }] := by
  constructor <;> rfl

/-- C5: the human-readable rendering of a `SyntaxError` is
`"{line}:{column} {reason}"`, with line and column taken verbatim from its
location and the reason rendered as its tag's canonical name; in particular
location 3:5 with reason `ExtraInput` renders as `"3:5 ExtraInput"`. -/
theorem claim_C5 :
    (∀ e : SyntaxError, SyntaxError.fmt e =
      Nat.repr e.location.line ++ ":" ++ Nat.repr e.location.column ++ " " ++
        ErrorReason.fmt e.reason) ∧
    ErrorReason.fmt ErrorReason.EmptyInput = "EmptyInput" ∧
    ErrorReason.fmt ErrorReason.ExtraInput = "ExtraInput" ∧
    ErrorReason.fmt ErrorReason.MissingQualifiedRuleBlock = "MissingQualifiedRuleBlock" ∧
    ErrorReason.fmt ErrorReason.InvalidDeclarationSyntax = "InvalidDeclarationSyntax" ∧
    ErrorReason.fmt ErrorReason.InvalidBangImportantSyntax = "InvalidBangImportantSyntax" ∧
    SyntaxError.fmt
      { location := { line := 3, column := 5 }, reason := ErrorReason.ExtraInput } =
      "3:5 ExtraInput" :=
  ⟨fun _ => rfl, rfl, rfl, rfl, rfl, rfl, by decide⟩

/-- C6 fails as stated: the derived `PartialEq` is not reflexive, because an
`f64` payload can be NaN and IEEE-754 equality makes NaN unequal to itself.
At the concrete value `Number { representation "NaN", value NaN, int_value
none }`, `x == x` is `false`. -/
theorem claim_C6_counterexample :
    ComponentValue.beq
      (ComponentValue.Number { representation := "NaN", value := F64.nan, int_value := none })
      (ComponentValue.Number { representation := "NaN", value := F64.nan, int_value := none }) =
      false := by decide

/-- C6 (amended): structural equality on `ComponentValue` is symmetric and
transitive for all values, and reflexive exactly on values containing no NaN
numeric payload (so it is an equivalence relation on NaN-free values, which
include everything a conforming tokenizer produces); two `Function` values
are equal exactly when their names match and their argument sequences are
element-wise equal in order, the arguments being NaN-free. -/
theorem claim_C6 (x y z : ComponentValue) :
    (ComponentValue.nanFree x = true → ComponentValue.beq x x = true) ∧
    (ComponentValue.beq x y = true → ComponentValue.beq y x = true) ∧
    (ComponentValue.beq x y = true → ComponentValue.beq y z = true →
      ComponentValue.beq x z = true) ∧
    (∀ n1 n2 a1 a2,
      (ComponentValue.beq (ComponentValue.Function n1 a1)
        (ComponentValue.Function n2 a2) = true) ↔
      (n1 = n2 ∧ a1 = a2 ∧ ComponentValue.nanFreeList a1 = true)) := by
  refine ⟨?_, ?_, ?_, ?_⟩
  · intro h
    exact (ComponentValue.beq_iff_eq x x).mpr ⟨rfl, h⟩
  · intro h
    obtain ⟨rfl, _⟩ := (ComponentValue.beq_iff_eq x y).mp h
    exact h
  · intro h1 h2
    obtain ⟨rfl, _⟩ := (ComponentValue.beq_iff_eq x y).mp h1
    exact h2
  · intro n1 n2 a1 a2
    rw [ComponentValue.beq_iff_eq]
    simp [ComponentValue.nanFree_Function, and_assoc]

/-- Witness for C6 at `Ident "a"`: transitivity applied at concrete NaN-free
inputs. -/
theorem claim_C6_witness :
    ComponentValue.beq (ComponentValue.Ident "a") (ComponentValue.Ident "a") = true :=
  (claim_C6 (ComponentValue.Ident "a") (ComponentValue.Ident "a")
    (ComponentValue.Ident "a")).2.2.1 (by decide) (by decide)

/-- C7 fails as stated: the `SourceLocation` type does not enforce the
1-based convention, a value with line 0 and column 0 being constructible. -/
theorem claim_C7_counterexample :
    ¬ (∀ loc : SourceLocation, 1 ≤ loc.line ∧ 1 ≤ loc.column) :=
  fun h => absurd (h { line := 0, column := 0 }).1 (by decide)

/-- C7 (amended): the 1-based bounds are a documented convention, not a type
invariant — `{ line := 0, column := 0 }` is constructible — but the
operations of this layer never create or alter a `SourceLocation`: both
whitespace-skipping iterators pass every location stored in their input
through unchanged, so when every location in the input sequence satisfies
`line ≥ 1 ∧ column ≥ 1`, so does every location in the iteration's output. -/
theorem claim_C7 (l : List ComponentValue)
    (h : ∀ cv ∈ l, ∀ loc ∈ ComponentValue.locations cv, 1 ≤ loc.line ∧ 1 ≤ loc.column) :
    (∀ cv ∈ (skip_whitespace l).exhaust, ∀ loc ∈ ComponentValue.locations cv,
      1 ≤ loc.line ∧ 1 ≤ loc.column) ∧
    (∀ cv ∈ (move_skip_whitespace l).exhaust, ∀ loc ∈ ComponentValue.locations cv,
      1 ≤ loc.line ∧ 1 ≤ loc.column) := by
  constructor
  · intro cv hcv
    rw [SkipWhitespaceIterator.exhaust_eq_filter] at hcv
    exact h cv (List.mem_filter.mp hcv).1
  · intro cv hcv
    rw [MoveSkipWhitespaceIterator.exhaust_eq_filter_move] at hcv
    exact h cv (List.mem_filter.mp hcv).1

/-- Witness for C7 at the empty sequence. -/
theorem claim_C7_witness :
    (∀ cv ∈ (skip_whitespace ([] : List ComponentValue)).exhaust,
      ∀ loc ∈ ComponentValue.locations cv, 1 ≤ loc.line ∧ 1 ≤ loc.column) ∧
    (∀ cv ∈ (move_skip_whitespace ([] : List ComponentValue)).exhaust,
      ∀ loc ∈ ComponentValue.locations cv, 1 ≤ loc.line ∧ 1 ≤ loc.column) :=
  claim_C7 [] (by simp)

/-- Stepping the borrowing iterator never touches the source sequence
component. -/
theorem borrowStep_fst (s : List ComponentValue × SkipWhitespaceIterator) :
    (borrowStep s).1 = s.1 := by
  rcases h : SkipWhitespaceIterator.next s.2 with _ | ⟨cv, it'⟩ <;>
    simp [borrowStep, h]

/-- A successful `next` leaves the iterator on a suffix of the sequence it
was scanning: the underlying cursor only moves forward. -/
theorem SkipWhitespaceIterator.nextLoop_drop (l : List ComponentValue) :
    ∀ cv it', SkipWhitespaceIterator.nextLoop l = some (cv, it') →
      ∃ j, it'.iter_with_whitespace = l.drop j := by
  induction l with
  | nil =>
    intro cv it' h
    exact absurd h (by simp [SkipWhitespaceIterator.nextLoop])
  | cons c rest ih =>
    intro cv it' h
    by_cases hc : ComponentValue.beq c ComponentValue.WhiteSpace = true
    · rw [show SkipWhitespaceIterator.nextLoop (c :: rest) =
          SkipWhitespaceIterator.nextLoop rest from by
        simp [SkipWhitespaceIterator.nextLoop, hc]] at h
      obtain ⟨j, hj⟩ := ih cv it' h
      exact ⟨j + 1, by simpa using hj⟩
    · rw [show SkipWhitespaceIterator.nextLoop (c :: rest) =
          some (c, { iter_with_whitespace := rest }) from by
        simp [SkipWhitespaceIterator.nextLoop, hc]] at h
      obtain ⟨rfl, rfl⟩ : c = cv ∧ ({ iter_with_whitespace := rest } :
          SkipWhitespaceIterator) = it' := by
        have h2 := Option.some.inj h
        exact ⟨congrArg Prod.fst h2, congrArg Prod.snd h2⟩
      exact ⟨1, rfl⟩

/-- C9: constructing the borrowing `skip_whitespace` iterator and stepping it
any number of times neither mutates nor copies the underlying sequence: in a
state-passing rendering of the iteration, the source component is unchanged
after any number of steps, the iterator always holds a forward suffix of the
source rather than a rearrangement or copy, and every yielded item is an
element of the source sequence itself. -/
theorem claim_C9 (l : List ComponentValue) (k : Nat) :
    ((borrowStep^[k]) (l, skip_whitespace l)).1 = l ∧
    (∃ j, ((borrowStep^[k]) (l, skip_whitespace l)).2.iter_with_whitespace = l.drop j) ∧
    (∀ cv ∈ (skip_whitespace l).exhaust, cv ∈ l) := by
  have aux : ∀ (k : Nat) (s : List ComponentValue × SkipWhitespaceIterator),
      s.1 = l → (∃ j, s.2.iter_with_whitespace = l.drop j) →
      ((borrowStep^[k]) s).1 = l ∧
        ∃ j, ((borrowStep^[k]) s).2.iter_with_whitespace = l.drop j := by
    intro k
    induction k with
    | zero =>
      intro s h1 h2
      exact ⟨h1, h2⟩
    | succ k ih =>
      intro s h1 h2
      rw [Function.iterate_succ_apply]
      apply ih
      · rw [borrowStep_fst]
        exact h1
      · obtain ⟨j, hj⟩ := h2
        rcases hnext : SkipWhitespaceIterator.next s.2 with _ | ⟨cv, it'⟩
        · rw [show borrowStep s = s from by simp [borrowStep, hnext]]
          exact ⟨j, hj⟩
        · have hdrop : ∃ j2, it'.iter_with_whitespace = (l.drop j).drop j2 := by
            apply SkipWhitespaceIterator.nextLoop_drop (l.drop j) cv it'
            rw [← hj]
            exact hnext
          obtain ⟨j2, hj2⟩ := hdrop
          refine ⟨j2 + j, ?_⟩
          rw [show borrowStep s = (s.1, it') from by simp [borrowStep, hnext]]
          rw [hj2, List.drop_drop, Nat.add_comm]
  refine ⟨(aux k (l, skip_whitespace l) rfl ⟨0, rfl⟩).1,
    (aux k (l, skip_whitespace l) rfl ⟨0, rfl⟩).2, ?_⟩
  intro cv hcv
  rw [SkipWhitespaceIterator.exhaust_eq_filter] at hcv
  exact (List.mem_filter.mp hcv).1

/-- Witness for C9 at the sequence `[Colon]` after one step. -/
theorem claim_C9_witness :
    ((borrowStep^[1]) ([ComponentValue.Colon], skip_whitespace [ComponentValue.Colon])).1 =
      [ComponentValue.Colon] ∧
    ComponentValue.Colon ∈ [ComponentValue.Colon] :=
  ⟨(claim_C9 [ComponentValue.Colon] 1).1,
    (claim_C9 [ComponentValue.Colon] 1).2.2 ComponentValue.Colon (by exact List.Mem.head _)⟩

/-- C10: whitespace filtering is shallow.  An item is yielded by either
iterator exactly when it is an element of the input sequence and is not
itself the `WhiteSpace` token; yielded items are the very elements of the
input, so whitespace nested inside a yielded `Function`'s arguments or inside
a yielded block is preserved unchanged — in particular a `Function` or a
curly-bracket block appearing in the input is yielded with its contents
intact, whatever whitespace they contain. -/
theorem claim_C10 (l : List ComponentValue) (cv : ComponentValue) :
    (cv ∈ (skip_whitespace l).exhaust ↔ (cv ∈ l ∧ cv ≠ ComponentValue.WhiteSpace)) ∧
    (cv ∈ (move_skip_whitespace l).exhaust ↔ (cv ∈ l ∧ cv ≠ ComponentValue.WhiteSpace)) ∧
    (∀ name args, ComponentValue.Function name args ∈ l →
      ComponentValue.Function name args ∈ (skip_whitespace l).exhaust) ∧
    (∀ ns, ComponentValue.CurlyBracketBlock ns ∈ l →
      ComponentValue.CurlyBracketBlock ns ∈ (skip_whitespace l).exhaust) := by
  have key : ∀ m : ComponentValue,
      m ∈ (skip_whitespace l).exhaust ↔ (m ∈ l ∧ m ≠ ComponentValue.WhiteSpace) := by
    intro m
    rw [SkipWhitespaceIterator.exhaust_eq_filter, List.mem_filter]
    constructor
    · rintro ⟨hm, hf⟩
      refine ⟨hm, fun he => ?_⟩
      rw [he] at hf
      exact absurd hf (by decide)
    · rintro ⟨hm, hne⟩
      refine ⟨hm, ?_⟩
      cases hiw : ComponentValue.isWhiteSpace m
      · rfl
      · exact absurd ((ComponentValue.isWhiteSpace_iff m).mp hiw) hne
  have keyMove : ∀ m : ComponentValue,
      m ∈ (move_skip_whitespace l).exhaust ↔ (m ∈ l ∧ m ≠ ComponentValue.WhiteSpace) := by
    intro m
    rw [MoveSkipWhitespaceIterator.exhaust_eq_filter_move, List.mem_filter]
    constructor
    · rintro ⟨hm, hf⟩
      refine ⟨hm, fun he => ?_⟩
      rw [he] at hf
      exact absurd hf (by decide)
    · rintro ⟨hm, hne⟩
      refine ⟨hm, ?_⟩
      cases hiw : ComponentValue.isWhiteSpace m
      · rfl
      · exact absurd ((ComponentValue.isWhiteSpace_iff m).mp hiw) hne
  refine ⟨key cv, keyMove cv, ?_, ?_⟩
  · intro name args hmem
    exact (key (ComponentValue.Function name args)).mpr
      ⟨hmem, fun h => ComponentValue.noConfusion h⟩
  · intro ns hmem
    exact (key (ComponentValue.CurlyBracketBlock ns)).mpr
      ⟨hmem, fun h => ComponentValue.noConfusion h⟩

/-- Witness for C10: a function whose argument list contains whitespace is
yielded unchanged from a sequence whose top-level whitespace is skipped. -/
theorem claim_C10_witness :
    ComponentValue.Function "f" [ComponentValue.WhiteSpace] ∈
      (skip_whitespace [ComponentValue.WhiteSpace,
        ComponentValue.Function "f" [ComponentValue.WhiteSpace]]).exhaust :=
  (claim_C10 [ComponentValue.WhiteSpace,
      ComponentValue.Function "f" [ComponentValue.WhiteSpace]]
    (ComponentValue.Function "f" [ComponentValue.WhiteSpace])).1.mpr
    ⟨List.Mem.tail _ (List.Mem.head _), fun h => ComponentValue.noConfusion h⟩

/-- Stripping a sign leaves a sublist of the original character list. -/
theorem splitSign_snd_sublist (l : List Char) : (splitSign l).2.Sublist l := by
  cases l with
  | nil => simp [splitSign]
  | cons c rest =>
    by_cases h1 : c = '+'
    · simp [splitSign, h1]
    · by_cases h2 : c = '-'
      · simp [splitSign, h1, h2]
      · simp [splitSign, h1, h2]

/-- The integer-production check spelled out on the characters of the
representation. -/
theorem isIntegerRepr_iff (s : String) :
    (isIntegerRepr s = true) ↔ ∀ c ∈ s.toList, c ≠ '.' ∧ c ≠ 'e' ∧ c ≠ 'E' := by
  simp [isIntegerRepr, List.all_eq_true, and_assoc]

/-- A valid number token whose text has no `.` and no exponent marker
consists, after the optional sign, of digits only. -/
theorem dropWhile_digits_eq_nil (s : String)
    (hclean : ∀ c ∈ s.toList, c ≠ '.' ∧ c ≠ 'e' ∧ c ≠ 'E')
    (htok : isNumberToken s = true) :
    (splitSign s.toList).2.dropWhile Char.isDigit = [] := by
  rcases hr : (splitSign s.toList).2.dropWhile Char.isDigit with _ | ⟨c, r⟩
  · rfl
  · exfalso
    have hmem : c ∈ s.toList := by
      have h1 : c ∈ (splitSign s.toList).2.dropWhile Char.isDigit := by
        rw [hr]; exact List.Mem.head _
      exact (splitSign_snd_sublist s.toList).mem ((List.dropWhile_sublist _).mem h1)
    obtain ⟨hdot, he, hE⟩ := hclean c hmem
    rw [isNumberToken] at htok
    simp only [hr] at htok
    rw [show fracSplit (c :: r) = ([], c :: r) from by simp [fracSplit, hdot]] at htok
    rw [show expOk (c :: r) = false from by simp [expOk, he, hE]] at htok
    simp at htok

/-- On an integer-production token the full numeric interpretation collapses
to the integer interpretation. -/
theorem numInterp_eq_intInterp (s : String)
    (hclean : ∀ c ∈ s.toList, c ≠ '.' ∧ c ≠ 'e' ∧ c ≠ 'E')
    (htok : isNumberToken s = true) :
    numInterp s = ((intInterp s : Int) : Rat) := by
  have hnil := dropWhile_digits_eq_nil s hclean htok
  rw [numInterp, intInterp]
  simp only [hnil]
  rw [show fracSplit [] = ([], []) from rfl]
  simp [digitsVal, expVal]

/-- C8: for a `NumericValue` constructed by a conforming tokenizer from a
valid number token text, `int_value` is present exactly when the
representation contains no `.` and no exponent marker, and when present it
equals both `round_to_int(value)` and the integer interpretation of the
representation. -/
theorem claim_C8 (s : String) (h : isNumberToken s = true) :
    ((mkNumericValue s).int_value.isSome = true ↔ isIntegerRepr s = true) ∧
    (∀ n : Int, (mkNumericValue s).int_value = some n →
      F64.roundToInt (mkNumericValue s).value = some n ∧ n = intInterp s) := by
  constructor
  · by_cases hi : isIntegerRepr s = true <;> simp [mkNumericValue, hi]
  · intro n hn
    by_cases hi : isIntegerRepr s = true
    · have hn' : n = intInterp s := by
        rw [mkNumericValue] at hn
        simp only [hi, if_pos] at hn
        exact (Option.some.inj hn).symm
      have hclean := (isIntegerRepr_iff s).mp hi
      have hkey := numInterp_eq_intInterp s hclean h
      refine ⟨?_, hn'⟩
      rw [mkNumericValue]
      simp only [F64.roundToInt, hkey, hn']
      rw [round_intCast]
    · rw [mkNumericValue] at hn
      simp [hi] at hn

/-- Witness for C8 at the token text `"42"`. -/
theorem claim_C8_witness :
    isNumberToken "42" = true ∧
    (((mkNumericValue "42").int_value.isSome = true ↔ isIntegerRepr "42" = true) ∧
      (∀ n : Int, (mkNumericValue "42").int_value = some n →
        F64.roundToInt (mkNumericValue "42").value = some n ∧ n = intInterp "42")) :=
  ⟨by decide, claim_C8 "42" (by decide)⟩
